import Mathlib

/-!
Verification of the jj workspace path registry slice:
* `src/lib/src/workspace_store.rs` (`SimpleWorkspaceStore`),
* `src/cli/src/commands/workspace/forget.rs` (`cmd_workspace_forget`),
* `src/cli/src/commands/workspace/root.rs` (`cmd_workspace_root`).

The registry persists one protobuf-encoded `Workspace { name, path }` record
per tracked workspace, in files named after the workspace symbol, inside
`<repo>/workspace_store/`.  Filesystem state is embedded as association lists
from file names to byte lists; machine bytes are `Nat` values below 256.
-/

namespace JJ

/-! ## UTF-8 byte encoding of strings

prost string fields are UTF-8 byte payloads; decoding validates UTF-8
(rejecting overlong forms and surrogate code points) exactly as Rust's
`String::from_utf8` does. -/

/-- UTF-8 encoding of one Unicode scalar value. -/
def utf8EncodeCharNat (v : Nat) : List Nat :=
  if v < 0x80 then
    [v]
  else if v < 0x800 then
    [0xC0 + v / 64, 0x80 + v % 64]
  else if v < 0x10000 then
    [0xE0 + v / 4096, 0x80 + (v / 64) % 64, 0x80 + v % 64]
  else
    [0xF0 + v / 262144, 0x80 + (v / 4096) % 64, 0x80 + (v / 64) % 64, 0x80 + v % 64]

/-- UTF-8 encoding of a character list. -/
def utf8EncodeChars : List Char → List Nat
  | [] => []
  | c :: cs => utf8EncodeCharNat c.toNat ++ utf8EncodeChars cs

/-- UTF-8 encoding of a string. -/
def utf8Encode (s : String) : List Nat :=
  utf8EncodeChars s.data

/-- Decode one UTF-8 scalar value from the front of a byte list, validating
continuation bytes, overlong encodings and the surrogate gap. -/
def utf8DecodeChar : List Nat → Option (Nat × List Nat)
  | [] => none
  | b0 :: t0 =>
    if b0 < 0x80 then some (b0, t0)
    else if b0 < 0xC2 then none
    else if b0 < 0xE0 then
      match t0 with
      | b1 :: t1 =>
        if 0x80 ≤ b1 ∧ b1 < 0xC0 then
          some ((b0 - 0xC0) * 64 + (b1 - 0x80), t1)
        else none
      | [] => none
    else if b0 < 0xF0 then
      match t0 with
      | b1 :: b2 :: t2 =>
        if 0x80 ≤ b1 ∧ b1 < 0xC0 ∧ 0x80 ≤ b2 ∧ b2 < 0xC0 then
          if 0x800 ≤ (b0 - 0xE0) * 4096 + (b1 - 0x80) * 64 + (b2 - 0x80) ∧
              ((b0 - 0xE0) * 4096 + (b1 - 0x80) * 64 + (b2 - 0x80) < 0xD800 ∨
                0xE000 ≤ (b0 - 0xE0) * 4096 + (b1 - 0x80) * 64 + (b2 - 0x80)) then
            some ((b0 - 0xE0) * 4096 + (b1 - 0x80) * 64 + (b2 - 0x80), t2)
          else none
        else none
      | _ => none
    else if b0 < 0xF5 then
      match t0 with
      | b1 :: b2 :: b3 :: t3 =>
        if 0x80 ≤ b1 ∧ b1 < 0xC0 ∧ 0x80 ≤ b2 ∧ b2 < 0xC0 ∧ 0x80 ≤ b3 ∧ b3 < 0xC0 then
          if 0x10000 ≤
                (b0 - 0xF0) * 262144 + (b1 - 0x80) * 4096 + (b2 - 0x80) * 64 + (b3 - 0x80) ∧
              (b0 - 0xF0) * 262144 + (b1 - 0x80) * 4096 + (b2 - 0x80) * 64 + (b3 - 0x80) <
                0x110000 then
            some ((b0 - 0xF0) * 262144 + (b1 - 0x80) * 4096 + (b2 - 0x80) * 64 + (b3 - 0x80), t3)
          else none
        else none
      | _ => none
    else none

/-- Fuel-indexed UTF-8 decoding of a whole byte list. -/
def utf8DecodeGo : Nat → List Nat → Option (List Char)
  | _, [] => some []
  | 0, _ :: _ => none
  | fuel + 1, b :: t =>
    match utf8DecodeChar (b :: t) with
    | some (v, rest) =>
      match utf8DecodeGo fuel rest with
      | some cs => some (Char.ofNat v :: cs)
      | none => none
    | none => none

/-- UTF-8 decoding of a byte list to a string; `none` on invalid UTF-8. -/
def utf8Decode (bs : List Nat) : Option String :=
  match utf8DecodeGo bs.length bs with
  | some cs => some cs.asString
  | none => none

/-! ## Varints (LEB128), as used by prost for keys and lengths -/

/-- Little-endian base-128 varint encoding (fuel-indexed so that it is
structurally recursive; the fuel never runs out when it is at least the
encoded value). -/
def varintEncodeGo : Nat → Nat → List Nat
  | 0, n => [n % 128]
  | fuel + 1, n => if n < 128 then [n] else (128 + n % 128) :: varintEncodeGo fuel (n / 128)

/-- Little-endian base-128 varint encoding. -/
def varintEncode (n : Nat) : List Nat :=
  varintEncodeGo n n

/-- Varint decoding from the front of a byte list. -/
def varintDecode : List Nat → Option (Nat × List Nat)
  | [] => none
  | b :: t =>
    if b < 128 then some (b, t)
    else
      match varintDecode t with
      | some (m, rest) => some ((b - 128) + 128 * m, rest)
      | none => none

theorem varintEncodeGo_ne_nil (fuel n : Nat) : varintEncodeGo fuel n ≠ [] := by
  cases fuel with
  | zero => simp [varintEncodeGo]
  | succ f =>
    rw [varintEncodeGo]
    split <;> simp

theorem varintEncode_ne_nil (n : Nat) : varintEncode n ≠ [] :=
  varintEncodeGo_ne_nil n n

theorem varintDecode_encodeGo (fuel : Nat) :
    ∀ n, n ≤ fuel → ∀ rest, varintDecode (varintEncodeGo fuel n ++ rest) = some (n, rest) := by
  induction fuel with
  | zero =>
    intro n hn rest
    interval_cases n
    rfl
  | succ f ih =>
    intro n hn rest
    rw [varintEncodeGo]
    split
    · simp only [List.cons_append, List.nil_append, varintDecode]
      rw [if_pos (by omega)]
      simp
    · simp only [List.cons_append, varintDecode, List.append_eq]
      rw [if_neg (by omega), ih (n / 128) (by omega) rest]
      simp only [Option.some.injEq, Prod.mk.injEq, and_true]
      omega

theorem varintDecode_encode (n : Nat) :
    ∀ rest, varintDecode (varintEncode n ++ rest) = some (n, rest) :=
  varintDecode_encodeGo n n (Nat.le_refl n)

/-! ## UTF-8 roundtrip -/

theorem utf8EncodeCharNat_length_pos (v : Nat) : 0 < (utf8EncodeCharNat v).length := by
  rw [utf8EncodeCharNat]
  split
  · simp
  · split
    · simp
    · split <;> simp

/-- Nat-level Unicode scalar value bounds extracted from a `Char`. -/
theorem char_toNat_valid (c : Char) :
    c.toNat < 0xD800 ∨ (0xDFFF < c.toNat ∧ c.toNat < 0x110000) := by
  rcases c.valid with h | ⟨h1, h2⟩
  · exact Or.inl (UInt32.toNat_lt_of_lt (by decide) h)
  · exact Or.inr ⟨UInt32.lt_toNat_of_lt (by decide) h1,
      UInt32.toNat_lt_of_lt (by decide) h2⟩

theorem utf8DecodeChar_encode (v : Nat)
    (hv : v < 0xD800 ∨ (0xDFFF < v ∧ v < 0x110000)) (rest : List Nat) :
    utf8DecodeChar (utf8EncodeCharNat v ++ rest) = some (v, rest) := by
  rw [utf8EncodeCharNat]
  by_cases h1 : v < 0x80
  · rw [if_pos h1]
    simp only [List.cons_append, List.nil_append, utf8DecodeChar]
    rw [if_pos h1]
  · rw [if_neg h1]
    by_cases h2 : v < 0x800
    · rw [if_pos h2]
      simp only [List.cons_append, List.nil_append, utf8DecodeChar]
      rw [if_neg (by omega), if_neg (by omega), if_pos (by omega),
        if_pos (by constructor <;> omega)]
      simp only [Option.some.injEq, Prod.mk.injEq, and_true]
      omega
    · rw [if_neg h2]
      by_cases h3 : v < 0x10000
      · rw [if_pos h3]
        simp only [List.cons_append, List.nil_append, utf8DecodeChar]
        rw [if_neg (by omega), if_neg (by omega), if_neg (by omega), if_pos (by omega),
          if_pos (by refine ⟨by omega, ?_, by omega, ?_⟩ <;> omega),
          if_pos (by constructor <;> omega)]
        simp only [Option.some.injEq, Prod.mk.injEq, and_true]
        omega
      · rw [if_neg h3]
        simp only [List.cons_append, List.nil_append, utf8DecodeChar]
        rw [if_neg (by omega), if_neg (by omega), if_neg (by omega), if_neg (by omega),
          if_pos (by omega),
          if_pos (by refine ⟨by omega, ?_, by omega, ?_, by omega, ?_⟩ <;> omega),
          if_pos (by constructor <;> omega)]
        simp only [Option.some.injEq, Prod.mk.injEq, and_true]
        omega

theorem utf8DecodeGo_encodeChars (cs : List Char) :
    ∀ fuel, (utf8EncodeChars cs).length ≤ fuel →
      utf8DecodeGo fuel (utf8EncodeChars cs) = some cs := by
  induction cs with
  | nil => intro fuel _; rw [utf8EncodeChars]; cases fuel <;> rfl
  | cons c cs ih =>
    intro fuel hfuel
    rw [utf8EncodeChars] at hfuel ⊢
    have hpos := utf8EncodeCharNat_length_pos c.toNat
    have hlen : (utf8EncodeChars cs).length + 1 ≤ fuel := by
      simp only [List.length_append] at hfuel; omega
    obtain ⟨f, rfl⟩ : ∃ f, fuel = f + 1 := ⟨fuel - 1, by omega⟩
    obtain ⟨b, t, hbt⟩ : ∃ b t, utf8EncodeCharNat c.toNat = b :: t := by
      cases h : utf8EncodeCharNat c.toNat with
      | nil => rw [h] at hpos; simp at hpos
      | cons b t => exact ⟨b, t, rfl⟩
    rw [hbt, List.cons_append, utf8DecodeGo, ← List.cons_append, ← hbt,
      utf8DecodeChar_encode c.toNat (char_toNat_valid c) (utf8EncodeChars cs)]
    simp only [ih f (by omega), Char.ofNat_toNat]

theorem utf8Decode_encode (s : String) : utf8Decode (utf8Encode s) = some s := by
  rw [utf8Decode, utf8Encode, utf8DecodeGo_encodeChars s.data _ (Nat.le_refl _)]
  cases s
  rfl

/-! ## The Workspace record codec

Modelled from the spec: `jj_lib::protos::workspace_store::Workspace` is
prost-generated code outside this slice.  The spec gives its wire schema —
field 1 `name` (length-delimited UTF-8 string), field 2 `path`
(length-delimited UTF-8 string); unknown trailing fields are skipped on
decode; proto3 encoding omits fields equal to the empty-string default. -/

/-- The persisted workspace record: the workspace name and the canonical
absolute path of its working copy. -/
structure Workspace where
  name : String
  path : String
deriving DecidableEq

/-- Encode one proto3 string field: key byte `tag*8 ||| 2`, varint length,
UTF-8 payload; the field is omitted when the string is the default `""`. -/
def encodeStringField (tag : Nat) (s : String) : List Nat :=
  if s = "" then []
  else varintEncode (tag * 8 + 2) ++ varintEncode (utf8Encode s).length ++ utf8Encode s

/-- prost encoding of a `Workspace` record (`encode_to_vec`). -/
def Workspace.encode (w : Workspace) : List Nat :=
  encodeStringField 1 w.name ++ encodeStringField 2 w.path

/-- One pass of the prost message-merge loop: reads a key, handles the two
known fields (wire type 2, last occurrence wins), skips unknown fields by
wire type, and rejects field number 0, group wire types and invalid wire
types, as prost does. -/
def decodeFields : Nat → List Nat → Workspace → Option Workspace
  | _, [], w => some w
  | 0, _ :: _, _ => none
  | fuel + 1, b :: t, w =>
    match varintDecode (b :: t) with
    | none => none
    | some (key, rest) =>
      if key / 8 = 0 then none
      else if key / 8 = 1 then
        if key % 8 = 2 then
          match varintDecode rest with
          | none => none
          | some (len, rest1) =>
            if len ≤ rest1.length then
              match utf8Decode (rest1.take len) with
              | some s => decodeFields fuel (rest1.drop len) { w with name := s }
              | none => none
            else none
        else none
      else if key / 8 = 2 then
        if key % 8 = 2 then
          match varintDecode rest with
          | none => none
          | some (len, rest1) =>
            if len ≤ rest1.length then
              match utf8Decode (rest1.take len) with
              | some s => decodeFields fuel (rest1.drop len) { w with path := s }
              | none => none
            else none
        else none
      else if key % 8 = 0 then
        match varintDecode rest with
        | none => none
        | some (_, rest1) => decodeFields fuel rest1 w
      else if key % 8 = 1 then
        if 8 ≤ rest.length then decodeFields fuel (rest.drop 8) w else none
      else if key % 8 = 2 then
        match varintDecode rest with
        | none => none
        | some (len, rest1) =>
          if len ≤ rest1.length then decodeFields fuel (rest1.drop len) w else none
      else if key % 8 = 5 then
        if 4 ≤ rest.length then decodeFields fuel (rest.drop 4) w else none
      else none

/-- prost decoding of a `Workspace` record (`Workspace::decode`); `none`
models `prost::DecodeError` (the spec's `MalformedRecord`). -/
def Workspace.decode (bs : List Nat) : Option Workspace :=
  decodeFields (bs.length + 1) bs { name := "", path := "" }

theorem decodeFields_nil (fuel : Nat) (w : Workspace) :
    decodeFields fuel [] w = some w := by
  cases fuel <;> rfl

theorem decodeFields_name (s : String) (hs : s ≠ "") (fuel : Nat) (rest : List Nat)
    (w : Workspace) :
    decodeFields (fuel + 1) (encodeStringField 1 s ++ rest) w =
      decodeFields fuel rest { w with name := s } := by
  rw [encodeStringField, if_neg hs]
  have hkey : varintEncode (1 * 8 + 2) = [10] := by decide
  rw [hkey]
  simp only [List.cons_append, List.append_eq, List.nil_append, List.append_assoc, decodeFields]
  have h10 : varintDecode (10 :: (varintEncode (utf8Encode s).length ++ (utf8Encode s ++ rest))) =
      some (10, varintEncode (utf8Encode s).length ++ (utf8Encode s ++ rest)) := by
    rw [varintDecode]
    simp
  rw [h10]
  norm_num
  rw [varintDecode_encode (utf8Encode s).length (utf8Encode s ++ rest)]
  dsimp only
  rw [if_pos (by simp), List.take_left, List.drop_left, utf8Decode_encode s]

theorem decodeFields_path (s : String) (hs : s ≠ "") (fuel : Nat) (rest : List Nat)
    (w : Workspace) :
    decodeFields (fuel + 1) (encodeStringField 2 s ++ rest) w =
      decodeFields fuel rest { w with path := s } := by
  rw [encodeStringField, if_neg hs]
  have hkey : varintEncode (2 * 8 + 2) = [18] := by decide
  rw [hkey]
  simp only [List.cons_append, List.append_eq, List.nil_append, List.append_assoc, decodeFields]
  have h18 : varintDecode (18 :: (varintEncode (utf8Encode s).length ++ (utf8Encode s ++ rest))) =
      some (18, varintEncode (utf8Encode s).length ++ (utf8Encode s ++ rest)) := by
    rw [varintDecode]
    simp
  rw [h18]
  norm_num
  rw [varintDecode_encode (utf8Encode s).length (utf8Encode s ++ rest)]
  dsimp only
  rw [if_pos (by simp), List.take_left, List.drop_left, utf8Decode_encode s]

theorem encodeStringField_empty (tag : Nat) : encodeStringField tag "" = [] := by
  rw [encodeStringField, if_pos rfl]

theorem encodeStringField_length_pos (tag : Nat) (s : String) (hs : s ≠ "") :
    0 < (encodeStringField tag s).length := by
  rw [encodeStringField, if_neg hs]
  have := varintEncode_ne_nil (tag * 8 + 2)
  cases h : varintEncode (tag * 8 + 2) with
  | nil => exact absurd h this
  | cons b t => simp [h]

/-- Round-trip of the record codec: prost decoding inverts prost encoding. -/
theorem Workspace.decode_encode (w : Workspace) : Workspace.decode w.encode = some w := by
  obtain ⟨n, p⟩ := w
  rw [Workspace.decode, Workspace.encode]
  by_cases hn : n = ""
  · by_cases hp : p = ""
    · subst hn; subst hp
      rfl
    · subst hn
      rw [encodeStringField_empty, List.nil_append]
      have h1 : 0 < (encodeStringField 2 p).length := encodeStringField_length_pos 2 p hp
      obtain ⟨f, hf⟩ : ∃ f, (encodeStringField 2 p).length + 1 = f + 1 := ⟨_, rfl⟩
      rw [hf]
      have := decodeFields_path p hp f [] { name := "", path := "" }
      rw [List.append_nil] at this
      rw [this, decodeFields_nil]
  · by_cases hp : p = ""
    · subst hp
      rw [encodeStringField_empty 2, List.append_nil]
      obtain ⟨f, hf⟩ : ∃ f, (encodeStringField 1 n).length + 1 = f + 1 := ⟨_, rfl⟩
      rw [hf]
      have := decodeFields_name n hn f [] { name := "", path := "" }
      rw [List.append_nil] at this
      rw [this, decodeFields_nil]
    · have h1 : 0 < (encodeStringField 1 n).length := encodeStringField_length_pos 1 n hn
      have h2 : 0 < (encodeStringField 2 p).length := encodeStringField_length_pos 2 p hp
      obtain ⟨f, hf⟩ : ∃ f,
          (encodeStringField 1 n ++ encodeStringField 2 p).length + 1 = f + 2 := by
        refine ⟨(encodeStringField 1 n ++ encodeStringField 2 p).length - 1, ?_⟩
        simp only [List.length_append]
        omega
      rw [hf]
      rw [decodeFields_name n hn (f + 1) (encodeStringField 2 p) { name := "", path := "" }]
      dsimp only
      have := decodeFields_path p hp f [] { name := n, path := "" }
      rw [List.append_nil] at this
      rw [this, decodeFields_nil]

/-! ## Directory contents as association lists

The registry directory is a set of named files; we embed it as an
association list from file name to contents, with `insertAL` replacing any
previous binding. -/

/-- Look up the contents of the file named `k`. -/
def lookupAL {α : Type} (k : String) : List (String × α) → Option α
  | [] => none
  | (k', v) :: rest => if k' = k then some v else lookupAL k rest

/-- Remove every binding of the file name `k`. -/
def eraseAL {α : Type} (k : String) : List (String × α) → List (String × α)
  | [] => []
  | (k', v) :: rest => if k' = k then eraseAL k rest else (k', v) :: eraseAL k rest

/-- Create or replace the file named `k` with contents `v`. -/
def insertAL {α : Type} (k : String) (v : α) (l : List (String × α)) :
    List (String × α) :=
  (k, v) :: eraseAL k l

theorem lookupAL_eraseAL_self {α : Type} (k : String) (l : List (String × α)) :
    lookupAL k (eraseAL k l) = none := by
  induction l with
  | nil => rfl
  | cons kv rest ih =>
    obtain ⟨k', v⟩ := kv
    rw [eraseAL]
    by_cases h : k' = k
    · rw [if_pos h]; exact ih
    · rw [if_neg h, lookupAL, if_neg h]; exact ih

theorem lookupAL_eraseAL_ne {α : Type} (k k' : String) (l : List (String × α))
    (h : k' ≠ k) : lookupAL k' (eraseAL k l) = lookupAL k' l := by
  induction l with
  | nil => rfl
  | cons kv rest ih =>
    obtain ⟨a, v⟩ := kv
    rw [eraseAL, lookupAL]
    by_cases ha : a = k
    · rw [if_pos ha, if_neg (by rw [ha]; exact fun hc => h hc.symm)]
      exact ih
    · rw [if_neg ha, lookupAL]
      by_cases ha' : a = k'
      · rw [if_pos ha', if_pos ha']
      · rw [if_neg ha', if_neg ha']
        exact ih

theorem lookupAL_insertAL_self {α : Type} (k : String) (v : α)
    (l : List (String × α)) : lookupAL k (insertAL k v l) = some v := by
  rw [insertAL, lookupAL, if_pos rfl]

theorem lookupAL_insertAL_ne {α : Type} (k k' : String) (v : α)
    (l : List (String × α)) (h : k' ≠ k) :
    lookupAL k' (insertAL k v l) = lookupAL k' l := by
  rw [insertAL, lookupAL, if_neg (fun hc => h hc.symm)]
  exact lookupAL_eraseAL_ne k k' l h

theorem mem_eraseAL {α : Type} (k : String) (e : String × α)
    (l : List (String × α)) (h : e ∈ eraseAL k l) : e ∈ l ∧ e.1 ≠ k := by
  induction l with
  | nil => cases h
  | cons kv rest ih =>
    obtain ⟨a, v⟩ := kv
    rw [eraseAL] at h
    by_cases ha : a = k
    · rw [if_pos ha] at h
      obtain ⟨h1, h2⟩ := ih h
      exact ⟨List.mem_cons_of_mem _ h1, h2⟩
    · rw [if_neg ha] at h
      rcases List.mem_cons.mp h with h0 | h0
      · subst h0; exact ⟨List.mem_cons_self _ _, ha⟩
      · obtain ⟨h1, h2⟩ := ih h0
        exact ⟨List.mem_cons_of_mem _ h1, h2⟩

theorem mem_insertAL {α : Type} (k : String) (v : α) (e : String × α)
    (l : List (String × α)) (h : e ∈ insertAL k v l) :
    e = (k, v) ∨ e ∈ l := by
  rw [insertAL] at h
  rcases List.mem_cons.mp h with h0 | h0
  · exact Or.inl h0
  · exact Or.inr (mem_eraseAL k e l h0).1

theorem lookupAL_isSome_iff_mem {α : Type} (k : String) (l : List (String × α)) :
    (lookupAL k l).isSome = true ↔ ∃ v, (k, v) ∈ l := by
  induction l with
  | nil => simp [lookupAL]
  | cons kv rest ih =>
    obtain ⟨a, v⟩ := kv
    rw [lookupAL]
    by_cases ha : a = k
    · subst ha
      simp
    · rw [if_neg ha, ih]
      constructor
      · rintro ⟨w, hw⟩
        exact ⟨w, List.mem_cons_of_mem _ hw⟩
      · rintro ⟨w, hw⟩
        rcases List.mem_cons.mp hw with h0 | h0
        · cases h0; exact absurd rfl ha
        · exact ⟨w, h0⟩

/-! ## WorkspaceStoreError and the store itself -/

/-- The kind of an underlying OS error; only `NotFound` is distinguished,
as in the spec's error table. -/
inductive IoErrorKind : Type
  | notFound
  | other
deriving DecidableEq

/-- Error type of the registry (`WorkspaceStoreError` in
`src/lib/src/workspace_store.rs`): `io` is an underlying filesystem failure,
optionally wrapped with the offending path for diagnostics; `path` is a path
construction failure (`PathError`); `prostDecode` is a record decode failure
(the spec's `MalformedRecord`). -/
inductive WorkspaceStoreError : Type
  | io (kind : IoErrorKind) (path : Option String)
  | path (p : String)
  | prostDecode
deriving DecidableEq

/-- The on-disk state of the registry directory `<repo>/workspace_store`:
missing (legacy repository), an existing directory with its files, or a
non-directory occupying the path. -/
inductive RegistryDirState : Type
  | missing
  | dir (files : List (String × List Nat))
  | notADir
deriving DecidableEq

/-- The registry handle: `SimpleWorkspaceStore` owns only the path of its
root directory. -/
structure SimpleWorkspaceStore where
  workspace_store_dir : String
deriving DecidableEq

/-- Path of the registry file backing a workspace name
(`SimpleWorkspaceStore::get_file`); the name is already its symbol form. -/
def SimpleWorkspaceStore.get_file (st : SimpleWorkspaceStore) (workspace_name : String) :
    String :=
  st.workspace_store_dir ++ "/" ++ workspace_name

/-- Registry loading (`SimpleWorkspaceStore::load`): computes
`repo_path/workspace_store` and ensures the directory exists.  The directory
creation step is modelled from the spec: `jj_lib::file_util::create_or_reuse_dir`
is outside this slice; per spec §4.2 it creates a missing directory, reuses an
existing one, and fails with `PathError` when a non-directory is in the way. -/
def SimpleWorkspaceStore.load (repo_path : String) (reg : RegistryDirState) :
    Except WorkspaceStoreError (SimpleWorkspaceStore × List (String × List Nat)) :=
  let dir := repo_path ++ "/workspace_store"
  match reg with
  | .missing => .ok (⟨dir⟩, [])
  | .dir files => .ok (⟨dir⟩, files)
  | .notADir => .error (.path dir)

/-- File-existence check (`SimpleWorkspaceStore::exists`): true iff the
registry file for the name exists; no decoding is performed. -/
def SimpleWorkspaceStore.exists_ (files : List (String × List Nat))
    (workspace_name : String) : Bool :=
  (lookupAL workspace_name files).isSome

/-- Record read (`SimpleWorkspaceStore::get_path`): read the whole file,
then decode it; a missing file surfaces as a `NotFound` filesystem error
wrapped with the file path, a decode failure as `prostDecode`. -/
def SimpleWorkspaceStore.get_path (st : SimpleWorkspaceStore)
    (files : List (String × List Nat)) (workspace_name : String) :
    Except WorkspaceStoreError Workspace :=
  match lookupAL workspace_name files with
  | none => .error (.io .notFound (some (st.get_file workspace_name)))
  | some bs =>
    match Workspace.decode bs with
    | some w => .ok w
    | none => .error .prostDecode

/-- Atomic rename of `src` over `dst` within the directory.  Modelled from
the spec: `jj_lib::file_util::persist_temp_file` is outside this slice; per
spec §4.2 it installs the temporary at the final name via an atomic
rename-replace. -/
def renameFile (src dst : String) (files : List (String × List Nat)) :
    List (String × List Nat) :=
  match lookupAL src files with
  | some bs => insertAL dst bs (eraseAL src files)
  | none => files

/-- Record write (`SimpleWorkspaceStore::set_path`): canonicalize the path
(`dunce::canonicalize`, embedded as the partial oracle `canon` since it
consults the live filesystem), encode `{name, path}`, create a fresh
temporary file `temp` in the registry directory, write the encoded bytes,
and rename-replace it over the final name.  A canonicalization failure is
an `io` error before any file is touched. -/
def SimpleWorkspaceStore.set_path (canon : String → Option String)
    (files : List (String × List Nat)) (workspace_name p temp : String) :
    Except WorkspaceStoreError (List (String × List Nat)) :=
  match canon p with
  | none => .error (.io .notFound none)
  | some cp =>
    let enc := Workspace.encode { name := workspace_name, path := cp }
    let afterCreate := insertAL temp [] files
    let afterWrite := insertAL temp enc afterCreate
    .ok (renameFile temp workspace_name afterWrite)

/-- Record removal (`SimpleWorkspaceStore::remove_path`): delete the
registry file; a missing file surfaces as a `NotFound` filesystem error
wrapped with the file path. -/
def SimpleWorkspaceStore.remove_path (st : SimpleWorkspaceStore)
    (files : List (String × List Nat)) (workspace_name : String) :
    Except WorkspaceStoreError (List (String × List Nat)) :=
  match lookupAL workspace_name files with
  | none => .error (.io .notFound (some (st.get_file workspace_name)))
  | some _ => .ok (eraseAL workspace_name files)

/-- The registry directory states observable if the process crashes at any
point between the beginning and the end of a `set_path` call: the original
directory (before the temporary exists), the directory with any prefix of
the encoded bytes written to the temporary file, or the directory after the
final atomic rename. -/
def setCrashState (canon : String → Option String)
    (workspace_name p temp : String) (files s : List (String × List Nat)) :
    Prop :=
  s = files ∨
  ∃ cp, canon p = some cp ∧
    ((∃ k, s = insertAL temp ((Workspace.encode { name := workspace_name, path := cp }).take k)
        files) ∨
      s = renameFile temp workspace_name
        (insertAL temp (Workspace.encode { name := workspace_name, path := cp })
          (insertAL temp [] files)))

/-- Invariant 1 of the spec's data model: every registry file decodes to a
record whose `name` field equals the file's name. -/
def RegistryInv (files : List (String × List Nat)) : Prop :=
  ∀ e ∈ files, ∃ w : Workspace, Workspace.decode e.2 = some w ∧ w.name = e.1

/-! ## The repository view and the command coordinators -/

/-- Modelled from the spec: the repository view (`jj_lib`, outside this
slice) records each workspace's current working-copy commit identifier;
`get_wc_commit_id` looks it up by workspace name. -/
def get_wc_commit_id (view : List (String × Nat)) (workspace_name : String) :
    Option Nat :=
  lookupAL workspace_name view

/-- Modelled from the spec: `remove_wc_commit` removes a workspace's
working-copy commit pointer from the transactional repository view. -/
def remove_wc_commit (view : List (String × Nat)) (workspace_name : String) :
    List (String × Nat) :=
  eraseAL workspace_name view

/-- The per-repository state the two coordinators touch: the repository
view's working-copy commit pointers and the registry directory. -/
structure RepoState where
  view : List (String × Nat)
  registry : RegistryDirState
deriving DecidableEq

/-- Error type of a command (`CommandError`): a `UserError` with its
message, or a propagated registry error. -/
inductive CommandError : Type
  | user (msg : String)
  | store (e : WorkspaceStoreError)
deriving DecidableEq

/-- Decidable equality on command results, for concrete evaluation. -/
instance {ε α : Type} [DecidableEq ε] [DecidableEq α] : DecidableEq (Except ε α) :=
  fun a b =>
    match a, b with
    | .ok x, .ok y =>
      if h : x = y then .isTrue (by rw [h]) else .isFalse (by intro hc; cases hc; exact h rfl)
    | .error x, .error y =>
      if h : x = y then .isTrue (by rw [h]) else .isFalse (by intro hc; cases hc; exact h rfl)
    | .ok _, .error _ => .isFalse (by intro hc; cases hc)
    | .error _, .ok _ => .isFalse (by intro hc; cases hc)

/-- The body of the forget loop in `cmd_workspace_forget`: remove the
working-copy commit pointer, then remove the registry file only if the
registry currently contains the name (the guard that tolerates workspaces
created before `workspace_store` existed). -/
def forgetStep (store : SimpleWorkspaceStore)
    (acc : List (String × Nat) × List (String × List Nat)) (ws : String) :
    Except WorkspaceStoreError (List (String × Nat) × List (String × List Nat)) :=
  let view' := remove_wc_commit acc.1 ws
  if SimpleWorkspaceStore.exists_ acc.2 ws then
    match SimpleWorkspaceStore.remove_path store acc.2 ws with
    | .ok files' => .ok (view', files')
    | .error e => .error e
  else
    .ok (view', acc.2)

/-- Transaction description built by `cmd_workspace_forget`. -/
def forgetDescription (wss : List String) : String :=
  match wss with
  | [ws] => "forget workspace " ++ ws
  | _ => "forget workspaces " ++ String.intercalate ", " wss

/-- The forget coordinator (`cmd_workspace_forget`).  An empty argument list
is replaced by the current workspace's name; every name is pre-validated
against the repository view before the transaction starts and before the
registry is loaded; then each workspace's commit pointer and (existing)
registry file are removed and the transaction finishes with its description.
The result pairs the final repository state with the command outcome (the
transaction description on success). -/
def cmd_workspace_forget (current : String) (argWorkspaces : List String)
    (repoPath : String) (st : RepoState) :
    RepoState × Except CommandError String :=
  let wss := if argWorkspaces.isEmpty then [current] else argWorkspaces
  match wss.find? (fun ws => (get_wc_commit_id st.view ws).isNone) with
  | some ws => (st, .error (.user ("No such workspace: " ++ ws)))
  | none =>
    match SimpleWorkspaceStore.load repoPath st.registry with
    | .error e => (st, .error (.store e))
    | .ok (store, files) =>
      match wss.foldlM (forgetStep store) (st.view, files) with
      | .error e => ({ st with registry := .dir files }, .error (.store e))
      | .ok (view', files') =>
        ({ view := view', registry := .dir files' }, .ok (forgetDescription wss))

/-- The root coordinator (`cmd_workspace_root`).  Resolves the name (the
explicit `--workspace` argument or the current workspace), loads the
registry, and prints the record's canonicalized path when the registry
contains the name; an explicitly supplied unknown name is a `UserError`,
while the default name falls back to the ambient workspace root.  The
successful outcome is the stdout text (path plus newline). -/
def cmd_workspace_root (current ambientRoot : String)
    (argWorkspace : Option String) (canon : String → Option String)
    (repoPath : String) (st : RepoState) :
    RepoState × Except CommandError String :=
  let name := match argWorkspace with
    | some ws => ws
    | none => current
  match SimpleWorkspaceStore.load repoPath st.registry with
  | .error e => (st, .error (.store e))
  | .ok (store, files) =>
    let st' : RepoState := { st with registry := .dir files }
    if SimpleWorkspaceStore.exists_ files name then
      match SimpleWorkspaceStore.get_path store files name with
      | .error e => (st', .error (.store e))
      | .ok w =>
        match canon w.path with
        | none => (st', .error (.store (.io .notFound none)))
        | some cp => (st', .ok (cp ++ "\n"))
    else if argWorkspace.isSome then
      (st', .error (.user ("No such workspace: " ++ name)))
    else
      (st', .ok (ambientRoot ++ "\n"))

/-! ## Helper lemmas -/

theorem forgetStep_eq (store : SimpleWorkspaceStore)
    (acc : List (String × Nat) × List (String × List Nat)) (ws : String) :
    forgetStep store acc ws =
      .ok (remove_wc_commit acc.1 ws,
        if SimpleWorkspaceStore.exists_ acc.2 ws then eraseAL ws acc.2 else acc.2) := by
  rw [forgetStep]
  cases h : SimpleWorkspaceStore.exists_ acc.2 ws with
  | false => simp [h]
  | true =>
    simp only [h, if_true]
    rw [SimpleWorkspaceStore.exists_] at h
    obtain ⟨bs, hbs⟩ := Option.isSome_iff_exists.mp h
    rw [SimpleWorkspaceStore.remove_path, hbs]

theorem foldlM_forgetStep (store : SimpleWorkspaceStore) (wss : List String) :
    ∀ acc : List (String × Nat) × List (String × List Nat),
      List.foldlM (forgetStep store) acc wss =
        .ok (wss.foldl (fun v w => remove_wc_commit v w) acc.1,
          wss.foldl (fun f w => if SimpleWorkspaceStore.exists_ f w then eraseAL w f else f)
            acc.2) := by
  induction wss with
  | nil => intro acc; rfl
  | cons w wss ih =>
    intro acc
    rw [List.foldlM_cons, forgetStep_eq]
    show Except.bind _ _ = _
    rw [Except.bind]
    exact ih _

theorem cmd_workspace_forget_success (current repoPath : String) (args : List String)
    (view : List (String × Nat)) (reg : RegistryDirState)
    (store : SimpleWorkspaceStore) (files : List (String × List Nat)) (wss : List String)
    (hwss : (if args.isEmpty then [current] else args) = wss)
    (hload : SimpleWorkspaceStore.load repoPath reg = .ok (store, files))
    (hval : ∀ ws ∈ wss, (get_wc_commit_id view ws).isSome) :
    cmd_workspace_forget current args repoPath ⟨view, reg⟩ =
      ({ view := wss.foldl (fun v w => remove_wc_commit v w) view,
         registry := .dir (wss.foldl
           (fun f w => if SimpleWorkspaceStore.exists_ f w then eraseAL w f else f) files) },
       .ok (forgetDescription wss)) := by
  have hfind : wss.find? (fun ws => (get_wc_commit_id view ws).isNone) = none := by
    rw [List.find?_eq_none]
    intro x hx
    obtain ⟨v, hv⟩ := Option.isSome_iff_exists.mp (hval x hx)
    simp [hv]
  rw [cmd_workspace_forget]
  simp only [hwss, hfind, hload, foldlM_forgetStep]

theorem lookupAL_none_foldl_remove (wss : List String) :
    ∀ (view : List (String × Nat)) (k : String), lookupAL k view = none →
      lookupAL k (wss.foldl (fun v w => remove_wc_commit v w) view) = none := by
  induction wss with
  | nil => intro view k h; exact h
  | cons w wss ih =>
    intro view k h
    rw [List.foldl_cons]
    apply ih
    rw [remove_wc_commit]
    by_cases hw : k = w
    · subst hw; exact lookupAL_eraseAL_self k view
    · rw [lookupAL_eraseAL_ne w k view hw]; exact h

theorem lookupAL_foldl_remove (wss : List String) :
    ∀ (view : List (String × Nat)) (ws : String), ws ∈ wss →
      lookupAL ws (wss.foldl (fun v w => remove_wc_commit v w) view) = none := by
  induction wss with
  | nil => intro _ _ h; cases h
  | cons w wss ih =>
    intro view ws h
    rw [List.foldl_cons]
    rcases List.mem_cons.mp h with h0 | h0
    · subst h0
      by_cases hmem : ws ∈ wss
      · exact ih _ ws hmem
      · exact lookupAL_none_foldl_remove wss _ ws
          (by rw [remove_wc_commit]; exact lookupAL_eraseAL_self ws view)
    · exact ih _ ws h0

theorem get_path_congr (store : SimpleWorkspaceStore)
    (files1 files2 : List (String × List Nat)) (n : String)
    (h : lookupAL n files1 = lookupAL n files2) :
    store.get_path files1 n = store.get_path files2 n := by
  rw [SimpleWorkspaceStore.get_path, SimpleWorkspaceStore.get_path, h]

theorem lookupAL_set_result (n temp : String) (enc : List Nat)
    (files : List (String × List Nat)) :
    lookupAL n (renameFile temp n (insertAL temp enc (insertAL temp [] files))) =
      some enc := by
  rw [renameFile, lookupAL_insertAL_self, lookupAL_insertAL_self]

/-! ## The claims -/

/-- C1: for every list of workspace names passed to forget (the empty list
replaced by the current workspace's name), if any name has no working-copy
commit in the repository view, the command fails with
`UserError("No such workspace: <name>")` before any mutation: the state —
repository view and registry directory alike — is returned unchanged, so no
registry file is removed and the registry directory is not created. -/
theorem forget_prevalidation (current repoPath : String) (args : List String)
    (st : RepoState)
    (h : ∃ ws ∈ (if args.isEmpty then [current] else args),
      get_wc_commit_id st.view ws = none) :
    ∃ ws ∈ (if args.isEmpty then [current] else args),
      get_wc_commit_id st.view ws = none ∧
      cmd_workspace_forget current args repoPath st =
        (st, .error (.user ("No such workspace: " ++ ws))) := by
  obtain ⟨w, hmem, hw⟩ := h
  have hsome : ((if args.isEmpty then [current] else args).find?
      (fun ws => (get_wc_commit_id st.view ws).isNone)).isSome := by
    rw [List.find?_isSome]
    exact ⟨w, hmem, by simp [hw]⟩
  obtain ⟨v, hv⟩ := Option.isSome_iff_exists.mp hsome
  have hvp := List.find?_some hv
  have hvm := List.mem_of_find?_eq_some hv
  refine ⟨v, hvm, by simpa using hvp, ?_⟩
  rw [cmd_workspace_forget]
  simp only [hv]

theorem forget_prevalidation_witness :
    ∃ ws ∈ (if ([] : List String).isEmpty then ["main"] else []),
      get_wc_commit_id (RepoState.mk [] .missing).view ws = none ∧
      cmd_workspace_forget "main" [] "/repo" ⟨[], .missing⟩ =
        (⟨[], .missing⟩, .error (.user ("No such workspace: " ++ ws))) :=
  forget_prevalidation "main" "/repo" [] ⟨[], .missing⟩
    ⟨"main", by decide, by decide⟩

/-- C2: when every resolved name passes validation, forget succeeds; each
name's working-copy commit pointer is removed from the transactional view
(afterwards no forgotten name has one), and the registry file is removed
only when the registry currently contains the name — so forgetting a
workspace whose registry entry is already absent succeeds, provided the
repository view contains the workspace. -/
theorem forget_removes_pointer_and_conditionally_registry (current repoPath : String)
    (args : List String) (view : List (String × Nat))
    (files : List (String × List Nat)) (wss : List String)
    (hwss : (if args.isEmpty then [current] else args) = wss)
    (hval : ∀ ws ∈ wss, (get_wc_commit_id view ws).isSome) :
    cmd_workspace_forget current args repoPath ⟨view, .dir files⟩ =
      ({ view := wss.foldl (fun v w => remove_wc_commit v w) view,
         registry := .dir (wss.foldl
           (fun f w => if SimpleWorkspaceStore.exists_ f w then eraseAL w f else f) files) },
       .ok (forgetDescription wss)) ∧
    ∀ ws ∈ wss,
      get_wc_commit_id (wss.foldl (fun v w => remove_wc_commit v w) view) ws = none := by
  refine ⟨cmd_workspace_forget_success current repoPath args view (.dir files)
    ⟨repoPath ++ "/workspace_store"⟩ files wss hwss rfl hval, ?_⟩
  intro ws hws
  exact lookupAL_foldl_remove wss view ws hws

theorem forget_removes_pointer_witness :
    cmd_workspace_forget "main" ["a"] "/repo" ⟨[("a", 7)], .dir []⟩ =
      (⟨[], .dir []⟩, .ok ("forget workspace a")) ∧
    get_wc_commit_id ([] : List (String × Nat)) "a" = none := by
  have h := forget_removes_pointer_and_conditionally_registry "main" "/repo" ["a"]
    [("a", 7)] [] ["a"] (by decide) (by decide)
  exact ⟨h.1, h.2 "a" (by decide)⟩

/-- C6: `remove_path` deletes the registry file `dir / name`; when no such
file exists, the error is an `Io` error of kind `NotFound` wrapped with that
path, not some other error kind. -/
theorem remove_path_notFound_kind (store : SimpleWorkspaceStore)
    (files : List (String × List Nat)) (n : String) :
    (lookupAL n files = none →
      store.remove_path files n = .error (.io .notFound (some (store.get_file n)))) ∧
    ∀ bs, lookupAL n files = some bs →
      store.remove_path files n = .ok (eraseAL n files) := by
  constructor
  · intro h; rw [SimpleWorkspaceStore.remove_path, h]
  · intro bs h; rw [SimpleWorkspaceStore.remove_path, h]

theorem remove_path_notFound_kind_witness :
    SimpleWorkspaceStore.remove_path ⟨"/r/workspace_store"⟩ [] "main" =
      .error (.io .notFound (some "/r/workspace_store/main")) :=
  (remove_path_notFound_kind ⟨"/r/workspace_store"⟩ [] "main").1 rfl

/-- C7: for a repository whose registry directory is missing, loading the
registry creates the (empty) directory, forget of the current workspace
still succeeds, and root without an explicit name succeeds printing the
ambient workspace root followed by a newline. -/
theorem legacy_tolerance (current ambient repoPath : String)
    (canon : String → Option String) (view : List (String × Nat)) (c : Nat)
    (hc : get_wc_commit_id view current = some c) :
    SimpleWorkspaceStore.load repoPath .missing =
      .ok (⟨repoPath ++ "/workspace_store"⟩, []) ∧
    cmd_workspace_forget current [] repoPath ⟨view, .missing⟩ =
      (⟨remove_wc_commit view current, .dir []⟩,
        .ok ("forget workspace " ++ current)) ∧
    cmd_workspace_root current ambient none canon repoPath ⟨view, .missing⟩ =
      (⟨view, .dir []⟩, .ok (ambient ++ "\n")) := by
  refine ⟨rfl, ?_, ?_⟩
  · have h := cmd_workspace_forget_success current repoPath [] view .missing
      ⟨repoPath ++ "/workspace_store"⟩ [] [current] (by simp) rfl
      (by intro ws hws
          rcases List.mem_singleton.mp hws with rfl
          rw [hc]; rfl)
    rw [h]
    rfl
  · rw [cmd_workspace_root]
    rfl

theorem legacy_tolerance_witness :
    SimpleWorkspaceStore.load "/repo" .missing =
      .ok (⟨"/repo/workspace_store"⟩, []) ∧
    cmd_workspace_forget "main" [] "/repo" ⟨[("main", 3)], .missing⟩ =
      (⟨remove_wc_commit [("main", 3)] "main", .dir []⟩,
        .ok ("forget workspace " ++ "main")) ∧
    cmd_workspace_root "main" "/amb" none (fun p => some p) "/repo"
        ⟨[("main", 3)], .missing⟩ =
      (⟨[("main", 3)], .dir []⟩, .ok ("/amb" ++ "\n")) :=
  legacy_tolerance "main" "/amb" "/repo" (fun p => some p) [("main", 3)] 3 (by decide)

/-- C8: on every successful forget the transaction description is
`"forget workspace <sym>"` when exactly one name was forgotten, and
otherwise `"forget workspaces <sym1>, <sym2>, ..."` listing the names in
the order given on the command line. -/
theorem forget_transaction_description (current repoPath : String)
    (args : List String) (view : List (String × Nat))
    (files : List (String × List Nat)) (wss : List String)
    (hwss : (if args.isEmpty then [current] else args) = wss)
    (hval : ∀ ws ∈ wss, (get_wc_commit_id view ws).isSome) :
    (cmd_workspace_forget current args repoPath ⟨view, .dir files⟩).2 =
      .ok (match wss with
        | [ws] => "forget workspace " ++ ws
        | _ => "forget workspaces " ++ String.intercalate ", " wss) := by
  rw [cmd_workspace_forget_success current repoPath args view (.dir files)
    ⟨repoPath ++ "/workspace_store"⟩ files wss hwss rfl hval]
  cases wss with
  | nil => rfl
  | cons a t => cases t <;> rfl

theorem forget_transaction_description_witness :
    (cmd_workspace_forget "main" ["b", "c", "a"] "/repo"
      ⟨[("a", 1), ("b", 2), ("c", 3)], .dir []⟩).2 =
      .ok ("forget workspaces " ++ String.intercalate ", " ["b", "c", "a"]) := by
  have h := forget_transaction_description "main" "/repo" ["b", "c", "a"]
    [("a", 1), ("b", 2), ("c", 3)] [] ["b", "c", "a"] (by decide) (by decide)
  exact h

theorem set_result_eq (n temp : String) (enc : List Nat)
    (files : List (String × List Nat)) :
    renameFile temp n (insertAL temp enc (insertAL temp [] files)) =
      insertAL n enc (eraseAL temp (insertAL temp enc (insertAL temp [] files))) := by
  rw [renameFile, lookupAL_insertAL_self]

theorem cmd_root_explicit_missing (current ambient n : String)
    (canon : String → Option String) (repoPath : String)
    (view : List (String × Nat)) (files : List (String × List Nat))
    (h : SimpleWorkspaceStore.exists_ files n = false) :
    cmd_workspace_root current ambient (some n) canon repoPath ⟨view, .dir files⟩ =
      (⟨view, .dir files⟩, .error (.user ("No such workspace: " ++ n))) := by
  rw [cmd_workspace_root]
  simp only [SimpleWorkspaceStore.load, h, Bool.false_eq_true, if_false,
    Option.isSome_some, if_true]

theorem cmd_root_explicit_found (current ambient n : String)
    (canon : String → Option String) (repoPath : String)
    (view : List (String × Nat)) (files : List (String × List Nat))
    (bs : List Nat) (w : Workspace) (cp : String)
    (hbs : lookupAL n files = some bs) (hw : Workspace.decode bs = some w)
    (hcp : canon w.path = some cp) :
    cmd_workspace_root current ambient (some n) canon repoPath ⟨view, .dir files⟩ =
      (⟨view, .dir files⟩, .ok (cp ++ "\n")) := by
  have hex : SimpleWorkspaceStore.exists_ files n = true := by
    rw [SimpleWorkspaceStore.exists_, hbs]; rfl
  rw [cmd_workspace_root]
  simp only [SimpleWorkspaceStore.load, hex, if_true,
    SimpleWorkspaceStore.get_path, hbs, hw, hcp]

theorem cmd_root_explicit_malformed (current ambient n : String)
    (canon : String → Option String) (repoPath : String)
    (view : List (String × Nat)) (files : List (String × List Nat))
    (bs : List Nat)
    (hbs : lookupAL n files = some bs) (hw : Workspace.decode bs = none) :
    cmd_workspace_root current ambient (some n) canon repoPath ⟨view, .dir files⟩ =
      (⟨view, .dir files⟩, .error (.store .prostDecode)) := by
  have hex : SimpleWorkspaceStore.exists_ files n = true := by
    rw [SimpleWorkspaceStore.exists_, hbs]; rfl
  rw [cmd_workspace_root]
  simp only [SimpleWorkspaceStore.load, hex, if_true,
    SimpleWorkspaceStore.get_path, hbs, hw]

theorem cmd_root_explicit_canon_fails (current ambient n : String)
    (canon : String → Option String) (repoPath : String)
    (view : List (String × Nat)) (files : List (String × List Nat))
    (bs : List Nat) (w : Workspace)
    (hbs : lookupAL n files = some bs) (hw : Workspace.decode bs = some w)
    (hcp : canon w.path = none) :
    cmd_workspace_root current ambient (some n) canon repoPath ⟨view, .dir files⟩ =
      (⟨view, .dir files⟩, .error (.store (.io .notFound none))) := by
  have hex : SimpleWorkspaceStore.exists_ files n = true := by
    rw [SimpleWorkspaceStore.exists_, hbs]; rfl
  rw [cmd_workspace_root]
  simp only [SimpleWorkspaceStore.load, hex, if_true,
    SimpleWorkspaceStore.get_path, hbs, hw, hcp]

/-- C3 counterexample: the claim "root with an explicit name raises
`UserError` exactly when the name is absent from BOTH the registry and the
repository view" is false: with the view containing `w` (a working-copy
commit is recorded) but the registry lacking it, the command still raises
`UserError("No such workspace: w")` — `cmd_workspace_root` never consults
the repository view. -/
theorem root_explicit_view_counterexample :
    ¬ (((cmd_workspace_root "main" "/amb" (some "w") (fun p => some p) "/repo"
          ⟨[("w", 0)], .dir []⟩).2 =
        .error (.user ("No such workspace: " ++ "w"))) ↔
      (SimpleWorkspaceStore.exists_ [] "w" = false ∧
        get_wc_commit_id [("w", (0 : Nat))] "w" = none)) := by
  decide

/-- C3 amended: for root invoked with an explicitly supplied workspace name,
the command raises `UserError("No such workspace: <name>")` exactly when the
name is absent from the REGISTRY (the repository view is not consulted);
when the registry contains the name and the record decodes and its path
canonicalizes, the command prints the record's canonicalized path. -/
theorem root_explicit_name_registry_only (current ambient n : String)
    (canon : String → Option String) (repoPath : String)
    (view : List (String × Nat)) (files : List (String × List Nat)) :
    ((cmd_workspace_root current ambient (some n) canon repoPath ⟨view, .dir files⟩).2 =
        .error (.user ("No such workspace: " ++ n)) ↔
      SimpleWorkspaceStore.exists_ files n = false) ∧
    (∀ bs w cp, lookupAL n files = some bs → Workspace.decode bs = some w →
      canon w.path = some cp →
      (cmd_workspace_root current ambient (some n) canon repoPath ⟨view, .dir files⟩).2 =
        .ok (cp ++ "\n")) := by
  constructor
  · constructor
    · intro hres
      cases hex : SimpleWorkspaceStore.exists_ files n with
      | false => rfl
      | true =>
        exfalso
        rw [SimpleWorkspaceStore.exists_] at hex
        obtain ⟨bs, hbs⟩ := Option.isSome_iff_exists.mp hex
        cases hw : Workspace.decode bs with
        | none =>
          rw [cmd_root_explicit_malformed current ambient n canon repoPath view files
            bs hbs hw] at hres
          cases hres
        | some w =>
          cases hcp : canon w.path with
          | none =>
            rw [cmd_root_explicit_canon_fails current ambient n canon repoPath view files
              bs w hbs hw hcp] at hres
            cases hres
          | some cp =>
            rw [cmd_root_explicit_found current ambient n canon repoPath view files
              bs w cp hbs hw hcp] at hres
            cases hres
    · intro hex
      rw [cmd_root_explicit_missing current ambient n canon repoPath view files hex]
  · intro bs w cp hbs hw hcp
    rw [cmd_root_explicit_found current ambient n canon repoPath view files bs w cp hbs hw hcp]

theorem root_explicit_name_registry_only_witness :
    ((cmd_workspace_root "main" "/amb" (some "w") (fun _ => some "/x") "/repo"
        ⟨[], .dir [("w", Workspace.encode { name := "w", path := "/x" })]⟩).2 =
      .ok ("/x" ++ "\n")) ∧
    ¬ ((cmd_workspace_root "main" "/amb" (some "w") (fun _ => some "/x") "/repo"
        ⟨[], .dir [("w", Workspace.encode { name := "w", path := "/x" })]⟩).2 =
      .error (.user ("No such workspace: " ++ "w"))) := by
  have h := root_explicit_name_registry_only "main" "/amb" "w" (fun _ => some "/x") "/repo"
    [] [("w", Workspace.encode { name := "w", path := "/x" })]
  refine ⟨h.2 (Workspace.encode { name := "w", path := "/x" })
    { name := "w", path := "/x" } "/x" (by decide)
    (Workspace.decode_encode { name := "w", path := "/x" }) rfl, ?_⟩
  intro hc
  have := h.1.mp hc
  exact absurd this (by decide)

/-- C4: after a successful `set_path(n, p)` — the canonicalization of `p`
being performed by `set_path` before encoding — `exists_(n)` is true and
`get_path(n)` returns the record whose `path` equals the canonicalized form
of `p`. -/
theorem set_path_then_get (canon : String → Option String)
    (store : SimpleWorkspaceStore) (files : List (String × List Nat))
    (n p temp cp : String) (h : canon p = some cp) :
    ∃ files', SimpleWorkspaceStore.set_path canon files n p temp = .ok files' ∧
      SimpleWorkspaceStore.exists_ files' n = true ∧
      store.get_path files' n = .ok { name := n, path := cp } := by
  refine ⟨renameFile temp n (insertAL temp (Workspace.encode { name := n, path := cp })
    (insertAL temp [] files)), ?_, ?_, ?_⟩
  · rw [SimpleWorkspaceStore.set_path, h]
  · rw [SimpleWorkspaceStore.exists_, lookupAL_set_result]
    rfl
  · rw [SimpleWorkspaceStore.get_path, lookupAL_set_result]
    simp only [Workspace.decode_encode]

theorem set_path_then_get_witness :
    ∃ files', SimpleWorkspaceStore.set_path (fun _ => some "/work/main") []
        "main" "/work/main" ".tmp0" = .ok files' ∧
      SimpleWorkspaceStore.exists_ files' "main" = true ∧
      SimpleWorkspaceStore.get_path ⟨"/r/workspace_store"⟩ files' "main" =
        .ok { name := "main", path := "/work/main" } :=
  set_path_then_get (fun _ => some "/work/main") ⟨"/r/workspace_store"⟩ []
    "main" "/work/main" ".tmp0" "/work/main" rfl

/-- C5: `set_path` writes to a uniquely-named temporary file in the registry
directory and installs it at the final name only via an atomic rename, so
for any crash between the beginning and the end of the call a subsequent
`get_path(n)` returns either the prior result (the prior record, or
`NotFound` if none existed) or the complete new record, and never fails with
a decode error (`MalformedRecord`); the state after a completed call is
itself one of the crash states. -/
theorem set_path_crash_atomicity (canon : String → Option String)
    (store : SimpleWorkspaceStore) (n p temp cp : String)
    (files s : List (String × List Nat))
    (hcanon : canon p = some cp) (htemp : temp ≠ n)
    (hprior : store.get_path files n ≠ .error .prostDecode)
    (hs : setCrashState canon n p temp files s) :
    (store.get_path s n = store.get_path files n ∨
      store.get_path s n = .ok { name := n, path := cp }) ∧
    store.get_path s n ≠ .error .prostDecode ∧
    ∀ files', SimpleWorkspaceStore.set_path canon files n p temp = .ok files' →
      setCrashState canon n p temp files files' := by
  have hlast : ∀ files', SimpleWorkspaceStore.set_path canon files n p temp = .ok files' →
      setCrashState canon n p temp files files' := by
    intro files' hf
    rw [SimpleWorkspaceStore.set_path, hcanon] at hf
    cases hf
    exact Or.inr ⟨cp, hcanon, Or.inr rfl⟩
  rcases hs with rfl | ⟨cp', hcp', hrest⟩
  · exact ⟨Or.inl rfl, hprior, hlast⟩
  · rw [hcanon] at hcp'
    injection hcp' with hcp'
    subst hcp'
    rcases hrest with ⟨k, rfl⟩ | rfl
    · have hcongr := get_path_congr store
        (insertAL temp ((Workspace.encode { name := n, path := cp }).take k) files) files n
        (lookupAL_insertAL_ne temp n _ files (fun hc => htemp hc.symm))
      refine ⟨Or.inl hcongr, ?_, hlast⟩
      rw [hcongr]
      exact hprior
    · have hget : store.get_path (renameFile temp n
          (insertAL temp (Workspace.encode { name := n, path := cp })
            (insertAL temp [] files))) n = .ok { name := n, path := cp } := by
        rw [SimpleWorkspaceStore.get_path, lookupAL_set_result]
        simp only [Workspace.decode_encode]
      refine ⟨Or.inr hget, ?_, hlast⟩
      rw [hget]
      intro hc
      cases hc

theorem set_path_crash_atomicity_witness :
    (SimpleWorkspaceStore.get_path ⟨"/r/workspace_store"⟩
        (insertAL ".tmp0" ((Workspace.encode { name := "main", path := "/w" }).take 3) [])
        "main" =
      SimpleWorkspaceStore.get_path ⟨"/r/workspace_store"⟩ [] "main" ∨
      SimpleWorkspaceStore.get_path ⟨"/r/workspace_store"⟩
        (insertAL ".tmp0" ((Workspace.encode { name := "main", path := "/w" }).take 3) [])
        "main" = .ok { name := "main", path := "/w" }) ∧
    SimpleWorkspaceStore.get_path ⟨"/r/workspace_store"⟩
      (insertAL ".tmp0" ((Workspace.encode { name := "main", path := "/w" }).take 3) [])
      "main" ≠ .error .prostDecode ∧
    ∀ files', SimpleWorkspaceStore.set_path (fun _ => some "/w") [] "main" "/w" ".tmp0" =
        .ok files' →
      setCrashState (fun _ => some "/w") "main" "/w" ".tmp0" [] files' :=
  set_path_crash_atomicity (fun _ => some "/w") ⟨"/r/workspace_store"⟩ "main" "/w" ".tmp0"
    "/w" [] (insertAL ".tmp0" ((Workspace.encode { name := "main", path := "/w" }).take 3) [])
    rfl (by decide) (by decide) (Or.inr ⟨"/w", rfl, Or.inl ⟨3, rfl⟩⟩)

/-- C9: the registry invariant — every file named `N` decodes to a record
whose `name` field equals `N` — is preserved by `set_path` and
`remove_path`; in particular `set_path(n, p)` stores under filename `n`
exactly the encoding of the record whose `name` field is `n`. -/
theorem registry_name_invariant (canon : String → Option String)
    (store : SimpleWorkspaceStore) (n p temp cp : String)
    (files files' files'' : List (String × List Nat)) :
    (canon p = some cp →
      SimpleWorkspaceStore.set_path canon files n p temp = .ok files' →
      lookupAL n files' = some (Workspace.encode { name := n, path := cp }) ∧
      (RegistryInv files → RegistryInv files')) ∧
    (store.remove_path files n = .ok files'' → RegistryInv files → RegistryInv files'') := by
  constructor
  · intro hc hset
    rw [SimpleWorkspaceStore.set_path, hc] at hset
    cases hset
    refine ⟨lookupAL_set_result n temp _ files, ?_⟩
    intro hinv e he
    rw [set_result_eq] at he
    rcases mem_insertAL _ _ _ _ he with rfl | he2
    · exact ⟨{ name := n, path := cp }, Workspace.decode_encode _, rfl⟩
    · obtain ⟨he3, hne⟩ := mem_eraseAL _ _ _ he2
      rcases mem_insertAL _ _ _ _ he3 with rfl | he4
      · exact absurd rfl hne
      · rcases mem_insertAL _ _ _ _ he4 with rfl | he5
        · exact absurd rfl hne
        · exact hinv e he5
  · intro hrem hinv
    cases hl : lookupAL n files with
    | none => rw [SimpleWorkspaceStore.remove_path, hl] at hrem; cases hrem
    | some bs =>
      rw [SimpleWorkspaceStore.remove_path, hl] at hrem
      cases hrem
      intro e he
      exact hinv e (mem_eraseAL n e files he).1

theorem registry_name_invariant_witness :
    lookupAL "main" (renameFile ".tmp0" "main"
        (insertAL ".tmp0" (Workspace.encode { name := "main", path := "/w" })
          (insertAL ".tmp0" [] []))) =
      some (Workspace.encode { name := "main", path := "/w" }) ∧
    (RegistryInv [] → RegistryInv (renameFile ".tmp0" "main"
        (insertAL ".tmp0" (Workspace.encode { name := "main", path := "/w" })
          (insertAL ".tmp0" [] [])))) :=
  (registry_name_invariant (fun _ => some "/w") ⟨"/r/workspace_store"⟩ "main" "/w" ".tmp0"
    "/w" [] (renameFile ".tmp0" "main"
      (insertAL ".tmp0" (Workspace.encode { name := "main", path := "/w" })
        (insertAL ".tmp0" [] []))) []).1 rfl rfl

/-- C10: `set_path` canonicalizes the input path against the live
filesystem before creating any file: when canonicalization fails, the call
fails with an error and every filesystem state observable during the call
equals the original registry — no temporary file is created and no entry is
written or replaced. -/
theorem set_path_canonicalize_first (canon : String → Option String)
    (files : List (String × List Nat)) (n p temp : String)
    (h : canon p = none) :
    SimpleWorkspaceStore.set_path canon files n p temp = .error (.io .notFound none) ∧
    ∀ s, setCrashState canon n p temp files s → s = files := by
  constructor
  · rw [SimpleWorkspaceStore.set_path, h]
  · rintro s (rfl | ⟨cp, hcp, _⟩)
    · rfl
    · rw [h] at hcp
      cases hcp

theorem set_path_canonicalize_first_witness :
    SimpleWorkspaceStore.set_path (fun _ => none) [] "main" "/missing" ".tmp0" =
      .error (.io .notFound none) ∧
    ∀ s, setCrashState (fun _ => none) "main" "/missing" ".tmp0" [] s → s = [] :=
  set_path_canonicalize_first (fun _ => none) [] "main" "/missing" ".tmp0" rfl

end JJ
